import Mathlib

/-!
Verification of the fb-game-post repository's collage-layout and
auto-fit-typography engine, shallowly embedded from the Python sources
(`src/collage.py`, `src/onThisDay.py`, `src/generateImage.py`).

Conventions of the embedding:
* Python ints are `Int` (pixel quantities may be negative in principle);
  item counts and list indices are `Nat`.
* Python's floor division `//` with a positive divisor is `Int` division
  (`Int.ediv`, which agrees with floor division for positive divisors).
* Python's `round` (banker's rounding, round-half-to-even) applied to an
  exact rational `num/den` is `pyRound num den` below.  The Python code
  computes these rationals in binary floating point; the embedding uses
  the exact rational value.
* Images are modelled by their integer dimensions; rasters produced by
  the tile pipeline are modelled by the `Tile` type, which records the
  provenance (solid placeholder vs. cropped/contained source) together
  with the output dimensions.
* Fallible operations (downloads, empty-input errors) are modelled with
  `Option` / `Except`.
-/

/-- Python `round` (round-half-to-even) of the exact rational `num/den`,
for `den > 0`.  `q` is the floor (Python `num // den`), `r` the
remainder; ties (`2*r = den`) round to the even neighbour. -/
def pyRound (num den : Int) : Int :=
  let q := num / den
  let r := num % den
  if 2 * r < den then q
  else if den < 2 * r then q + 1
  else if q % 2 = 0 then q else q + 1

example : (-7 : Int) / 2 = -4 := by decide
example : (8190 : Int) % 16 = 14 := by decide
example : pyRound 8190 16 = 512 := by decide
example : pyRound 16380 16 = 1024 := by decide
example : pyRound 5 2 = 2 := by decide
example : pyRound 7 2 = 4 := by decide

/-! ## Grid layout planner (`make_collage`, first pass, `src/collage.py` lines 64-97) -/

/-- One entry of `rows_meta` in `make_collage`:
`(items_in_row, cell_w, cell_h, x_start)`. -/
structure RowMeta where
  items : Nat
  cellW : Int
  cellH : Int
  xStart : Int
deriving Repr, DecidableEq

/-- The body of the first-pass loop of `make_collage` for one row holding
`itemsInRow` images (`src/collage.py` lines 78-93). -/
def mkRow (cols : Nat) (canvasW margin gutter arW arH : Int) (itemsInRow : Nat) : RowMeta :=
  if itemsInRow = cols then
    let cellW := (canvasW - 2 * margin - ((cols : Int) - 1) * gutter) / (cols : Int)
    ⟨itemsInRow, cellW, pyRound (cellW * arH) arW, margin⟩
  else if itemsInRow = 1 then
    let cellW := canvasW - 2 * margin
    ⟨itemsInRow, cellW, pyRound (cellW * arH) arW, margin⟩
  else
    let cellW := (canvasW - 2 * margin - ((itemsInRow : Int) - 1) * gutter) / (itemsInRow : Int)
    let rowW := (itemsInRow : Int) * cellW + ((itemsInRow : Int) - 1) * gutter
    ⟨itemsInRow, cellW, pyRound (cellW * arH) arW, (canvasW - rowW) / 2⟩

/-- The first-pass loop of `make_collage`: `rowsLeft` iterations remain and
`idx` images have been consumed. -/
def planRowsAux (n cols : Nat) (canvasW margin gutter arW arH : Int) :
    Nat → Nat → List RowMeta
  | 0, _ => []
  | rowsLeft + 1, idx =>
    let itemsInRow := min cols (n - idx)
    mkRow cols canvasW margin gutter arW arH itemsInRow ::
      planRowsAux n cols canvasW margin gutter arW arH rowsLeft (idx + itemsInRow)

/-- The first pass of `make_collage` (`src/collage.py` lines 67-94): clamp
`cols` to at least 1, run `ceil(n / cols)` loop iterations. -/
def planRows (n cols : Nat) (canvasW margin gutter arW arH : Int) : List RowMeta :=
  let colsC := max cols 1
  planRowsAux n colsC canvasW margin gutter arW arH ((n + colsC - 1) / colsC) 0

/-- `canvas_h_dyn` of `make_collage` (`src/collage.py` line 97). -/
def canvasHeight (rows : List RowMeta) (gutter margin : Int) : Int :=
  (rows.map RowMeta.cellH).sum + ((rows.length : Int) - 1) * gutter + 2 * margin

/-- Total of the per-row item counts. -/
def sumItems (rows : List RowMeta) : Nat :=
  (rows.map RowMeta.items).sum

example : planRows 5 2 1820 0 0 16 9 =
    [⟨2, 910, 512, 0⟩, ⟨2, 910, 512, 0⟩, ⟨1, 1820, 1024, 0⟩] := by decide

example : canvasHeight (planRows 5 2 1820 0 0 16 9) 0 0 = 2048 := by decide

theorem planRowsAux_length (n cols : Nat) (canvasW margin gutter arW arH : Int) :
    ∀ k idx, (planRowsAux n cols canvasW margin gutter arW arH k idx).length = k := by
  intro k
  induction k with
  | zero => intro idx; rfl
  | succ k ih => intro idx; simp [planRowsAux, ih]

theorem mkRow_items (cols : Nat) (canvasW margin gutter arW arH : Int) (j : Nat) :
    (mkRow cols canvasW margin gutter arW arH j).items = j := by
  unfold mkRow
  split_ifs <;> rfl

theorem planRowsAux_sumItems (n cols : Nat) (canvasW margin gutter arW arH : Int) :
    ∀ k idx, sumItems (planRowsAux n cols canvasW margin gutter arW arH k idx) =
      min (k * cols) (n - idx) := by
  intro k
  induction k with
  | zero => intro idx; simp [planRowsAux, sumItems]
  | succ k ih =>
    intro idx
    have h := ih (idx + min cols (n - idx))
    simp only [planRowsAux, sumItems, List.map_cons, List.sum_cons, mkRow_items] at h ⊢
    rw [h]
    have hmul : (k + 1) * cols = k * cols + cols := by ring
    rcases Nat.le_total cols (n - idx) with hc | hc <;>
      rcases Nat.le_total ((k + 1) * cols) (n - idx) with hk | hk <;> omega

theorem planRowsAux_mem (n cols : Nat) (canvasW margin gutter arW arH : Int) :
    ∀ k idx row, row ∈ planRowsAux n cols canvasW margin gutter arW arH k idx →
      ∃ j, row = mkRow cols canvasW margin gutter arW arH j := by
  intro k
  induction k with
  | zero => intro idx row h; simp [planRowsAux] at h
  | succ k ih =>
    intro idx row h
    simp only [planRowsAux, List.mem_cons] at h
    rcases h with h | h
    · exact ⟨_, h⟩
    · exact ih _ row h

theorem mkRow_cellH (cols : Nat) (canvasW margin gutter arW arH : Int) (j : Nat) :
    (mkRow cols canvasW margin gutter arW arH j).cellH =
      pyRound ((mkRow cols canvasW margin gutter arW arH j).cellW * arH) arW := by
  unfold mkRow
  split_ifs <;> rfl

theorem planRows_length (n cols : Nat) (canvasW margin gutter arW arH : Int)
    (hc : 1 ≤ cols) :
    (planRows n cols canvasW margin gutter arW arH).length = (n + cols - 1) / cols := by
  have hmax : max cols 1 = cols := by omega
  simp only [planRows, hmax]
  exact planRowsAux_length n cols canvasW margin gutter arW arH _ 0

theorem planRows_sumItems (n cols : Nat) (canvasW margin gutter arW arH : Int)
    (hn : 1 ≤ n) (hc : 1 ≤ cols) :
    sumItems (planRows n cols canvasW margin gutter arW arH) = n := by
  have hmax : max cols 1 = cols := by omega
  simp only [planRows, hmax]
  rw [planRowsAux_sumItems]
  have h4 : (n + cols - 1) / cols = (n - 1) / cols + 1 := by
    rw [show n + cols - 1 = (n - 1) + cols by omega, Nat.add_div_right _ (by omega)]
  rw [h4]
  have h5 : n - 1 < ((n - 1) / cols + 1) * cols :=
    (Nat.div_lt_iff_lt_mul (by omega)).mp (Nat.lt_succ_self _)
  generalize ((n - 1) / cols + 1) * cols = X at h5 ⊢
  omega

/-- C1: for every `item_count ≥ 1` and `columns ≥ 1`, the first pass of
`make_collage` produces exactly `⌈item_count / columns⌉ = (n + cols - 1) / cols`
rows, and the per-row item counts sum to `item_count`. -/
theorem grid_planner_row_count_and_sum (n cols : Nat) (canvasW margin gutter arW arH : Int)
    (hn : 1 ≤ n) (hc : 1 ≤ cols) :
    (planRows n cols canvasW margin gutter arW arH).length = (n + cols - 1) / cols ∧
    sumItems (planRows n cols canvasW margin gutter arW arH) = n :=
  ⟨planRows_length n cols canvasW margin gutter arW arH hc,
   planRows_sumItems n cols canvasW margin gutter arW arH hn hc⟩

theorem grid_planner_row_count_and_sum_holds :
    1 ≤ 5 ∧ 1 ≤ 2 ∧
    ((planRows 5 2 1820 0 0 16 9).length = (5 + 2 - 1) / 2 ∧
     sumItems (planRows 5 2 1820 0 0 16 9) = 5) :=
  ⟨by decide, by decide,
    grid_planner_row_count_and_sum 5 2 1820 0 0 16 9 (by decide) (by decide)⟩

/-- C2: in the aspect-driven grid, a row holding exactly one item gets cell
width `canvas_w - 2*margin` with x-start `margin`; a row holding `k` items
with `1 < k < cols` gets the evenly divided cell width and is horizontally
centered at `(canvas_w - row_w) / 2`. -/
theorem sparse_row_geometry (n cols : Nat) (canvasW margin gutter arW arH : Int)
    (row : RowMeta) (hc : 1 ≤ cols)
    (hmem : row ∈ planRows n cols canvasW margin gutter arW arH) :
    (row.items = 1 → row.cellW = canvasW - 2 * margin ∧ row.xStart = margin) ∧
    (1 < row.items → row.items < cols →
      row.cellW = (canvasW - 2 * margin - ((row.items : Int) - 1) * gutter) / (row.items : Int) ∧
      row.xStart =
        (canvasW - ((row.items : Int) * row.cellW + ((row.items : Int) - 1) * gutter)) / 2) := by
  have hmax : max cols 1 = cols := by omega
  simp only [planRows, hmax] at hmem
  obtain ⟨j, rfl⟩ := planRowsAux_mem n cols canvasW margin gutter arW arH _ _ _ hmem
  unfold mkRow
  split_ifs with h1 h2
  · refine ⟨?_, ?_⟩
    · intro hj
      simp only [] at hj
      have hcols : cols = 1 := by omega
      subst hcols
      simp
    · intro _ hjlt
      simp only [] at hjlt
      omega
  · refine ⟨fun _ => ⟨rfl, rfl⟩, ?_⟩
    · intro hjgt
      simp only [] at hjgt
      omega
  · refine ⟨?_, fun _ _ => ⟨rfl, rfl⟩⟩
    intro hj
    simp only [] at hj
    exact absurd hj h2

theorem sparse_row_geometry_holds :
    1 ≤ 2 ∧ (⟨1, 1820, 1024, 0⟩ : RowMeta) ∈ planRows 5 2 1820 0 0 16 9 ∧
    ((1 = 1 → (1820 : Int) = 1820 - 2 * 0 ∧ (0 : Int) = 0) ∧
     (1 < 1 → 1 < 2 →
      (1820 : Int) = (1820 - 2 * 0 - ((1 : Int) - 1) * 0) / (1 : Int) ∧
      (0 : Int) = (1820 - ((1 : Int) * 1820 + ((1 : Int) - 1) * 0)) / 2)) := by
  refine ⟨by decide, by decide, ?_⟩
  have h := sparse_row_geometry 5 2 1820 0 0 16 9 ⟨1, 1820, 1024, 0⟩ (by decide) (by decide)
  constructor
  · intro _
    exact ⟨(h.1 rfl).1, (h.1 rfl).2⟩
  · intro h1 _
    omega

/-- C3: every planned row's cell height is `round(cell_w * aspect_h / aspect_w)`
(Python banker's rounding of the exact ratio); the canvas height is the sum of
the row heights plus `(rows - 1) * gutter + 2 * margin`; and the concrete
scenario `item_count = 5, columns = 2, canvas_width = 1820, aspect 16:9,
margin = gutter = 0` yields rows `[2, 2, 1]` with heights `[512, 512, 1024]`,
the last row's single item spanning the full canvas width, and canvas height
`2048`. -/
theorem row_heights_and_canvas_height :
    (∀ (n cols : Nat) (canvasW margin gutter arW arH : Int) (row : RowMeta),
        row ∈ planRows n cols canvasW margin gutter arW arH →
        row.cellH = pyRound (row.cellW * arH) arW) ∧
    (∀ (rows : List RowMeta) (gutter margin : Int),
        canvasHeight rows gutter margin =
          (rows.map RowMeta.cellH).sum + ((rows.length : Int) - 1) * gutter + 2 * margin) ∧
    (planRows 5 2 1820 0 0 16 9 =
        [⟨2, 910, 512, 0⟩, ⟨2, 910, 512, 0⟩, ⟨1, 1820, 1024, 0⟩] ∧
     canvasHeight (planRows 5 2 1820 0 0 16 9) 0 0 = 2048) := by
  refine ⟨?_, fun _ _ _ => rfl, by decide, by decide⟩
  intro n cols canvasW margin gutter arW arH row hmem
  simp only [planRows] at hmem
  obtain ⟨j, rfl⟩ := planRowsAux_mem n _ canvasW margin gutter arW arH _ _ _ hmem
  exact mkRow_cellH _ canvasW margin gutter arW arH j

theorem row_heights_and_canvas_height_holds :
    (⟨1, 1820, 1024, 0⟩ : RowMeta) ∈ planRows 5 2 1820 0 0 16 9 ∧
    (⟨1, 1820, 1024, 0⟩ : RowMeta).cellH =
      pyRound ((⟨1, 1820, 1024, 0⟩ : RowMeta).cellW * 9) 16 :=
  ⟨by decide,
    row_heights_and_canvas_height.1 5 2 1820 0 0 16 9 ⟨1, 1820, 1024, 0⟩ (by decide)⟩

/-! ## Image tile fitter (`_resize_into_cell`, `src/collage.py` lines 16-38;
`_center_crop_cover`, `src/onThisDay.py` lines 204-217) -/

/-- The scaled size computed by the cover branch: if the source aspect ratio
`srcW/srcH` exceeds the cell aspect ratio `tw/th` (compared here exactly, by
cross-multiplication), height drives the scale, otherwise width does; the free
dimension is `int(round(...))` of the exact proportional value. -/
def coverScaledSize (srcW srcH tw th : Int) : Int × Int :=
  if srcW * th > tw * srcH then
    (pyRound (th * srcW) srcH, th)
  else
    (tw, pyRound (tw * srcH) srcW)

/-- PIL `Image.crop((left, top, right, bottom))` yields a raster of size
`(right - left, bottom - top)`. -/
def cropSize (left top right bottom : Int) : Int × Int :=
  (right - left, bottom - top)

/-- Output size of the cover fit: resize to `coverScaledSize`, then
center-crop `(left, top, left + tw, top + th)`. -/
def centerCropCover (srcW srcH tw th : Int) : Int × Int :=
  let scaled := coverScaledSize srcW srcH tw th
  let left := (scaled.1 - tw) / 2
  let top := (scaled.2 - th) / 2
  cropSize left top (left + tw) (top + th)

/-- Tiles produced by the collage pipeline, tracking provenance (solid
placeholder vs. cover-cropped vs. contain-fitted source) and output size. -/
inductive Tile where
  | solid (w h : Int) (color : Int × Int × Int)
  | cropped (srcW srcH w h : Int)
  | contained (srcW srcH w h : Int)
deriving Repr, DecidableEq

def Tile.width : Tile → Int
  | .solid w _ _ => w
  | .cropped _ _ w _ => w
  | .contained _ _ w _ => w

def Tile.height : Tile → Int
  | .solid _ h _ => h
  | .cropped _ _ _ h => h
  | .contained _ _ _ h => h

inductive Mode where
  | cover
  | contain
deriving Repr, DecidableEq

/-- `_resize_into_cell(img, target_w, target_h, mode, bg)`: a failed download
(`img is None`) becomes a solid `(32, 32, 32)` raster of the target size; in
cover mode the source is scaled and center-cropped; in contain mode the source
is fitted and pasted centered onto a background canvas of the target size. -/
def resizeIntoCell (img : Option (Int × Int)) (tw th : Int) (mode : Mode) : Tile :=
  match img with
  | none => .solid tw th (32, 32, 32)
  | some (w, h) =>
    match mode with
    | .cover =>
      let sz := centerCropCover w h tw th
      .cropped w h sz.1 sz.2
    | .contain => .contained w h tw th

/-- C4: for every source image of positive dimensions and positive target
dimensions, the cover-mode fitter returns a raster of exactly
`target_w × target_h`, whether the source aspect ratio is wider or narrower
than the target's. -/
theorem cover_fit_exact_target (srcW srcH tw th : Int)
    (hw : 0 < srcW) (hh : 0 < srcH) (htw : 0 < tw) (hth : 0 < th) :
    centerCropCover srcW srcH tw th = (tw, th) ∧
    resizeIntoCell (some (srcW, srcH)) tw th .cover = .cropped srcW srcH tw th := by
  have hcrop : centerCropCover srcW srcH tw th = (tw, th) := by
    unfold centerCropCover cropSize
    simp only []
    rw [Prod.mk.injEq]
    constructor <;> ring
  refine ⟨hcrop, ?_⟩
  simp [resizeIntoCell, hcrop]

theorem cover_fit_exact_target_holds :
    (0 : Int) < 1920 ∧ (0 : Int) < 1080 ∧ (0 : Int) < 910 ∧ (0 : Int) < 512 ∧
    (centerCropCover 1920 1080 910 512 = (910, 512) ∧
     resizeIntoCell (some (1920, 1080)) 910 512 .cover = .cropped 1920 1080 910 512) :=
  ⟨by decide, by decide, by decide, by decide,
    cover_fit_exact_target 1920 1080 910 512 (by decide) (by decide) (by decide) (by decide)⟩

/-! ## Collage assembly (`make_collage`, second pass, `src/collage.py`
lines 100-116) -/

/-- One pasted tile: `idx` is the value of the code's running `idx` counter
(the position in `urls`) when the tile was fetched, `(x, y)` the paste origin. -/
structure Placement where
  idx : Nat
  tile : Tile
  x : Int
  y : Int
deriving Repr, DecidableEq

/-- The inner loop of the second pass: paste `k` tiles of one row, advancing
`x` by `cell_w + gutter` after each tile. -/
def placeRowAux (download : Nat → Option (Int × Int)) (mode : Mode)
    (cellW cellH gutter : Int) : Nat → Nat → Int → Int → List Placement
  | 0, _, _, _ => []
  | k + 1, idx, x, y =>
    ⟨idx, resizeIntoCell (download idx) cellW cellH mode, x, y⟩ ::
      placeRowAux download mode cellW cellH gutter k (idx + 1) (x + cellW + gutter) y

/-- The outer loop of the second pass: paste every row, advancing `y` by
`cell_h + gutter` after each row. -/
def placeRows (download : Nat → Option (Int × Int)) (mode : Mode) (gutter : Int) :
    List RowMeta → Nat → Int → List Placement
  | [], _, _ => []
  | row :: rest, idx, y =>
    placeRowAux download mode row.cellW row.cellH gutter row.items idx row.xStart y ++
      placeRows download mode gutter rest (idx + row.items) (y + row.cellH + gutter)

/-- `make_collage` (`src/collage.py` lines 40-116): raises `ValueError` on an
empty URL list, otherwise plans the rows and pastes one tile per URL,
substituting a placeholder wherever `download` fails.  `download i` is the
result of `_download_image(urls[i])` (`none` on any exception). -/
def make_collage (download : Nat → Option (Int × Int)) (nUrls : Nat) (canvasW : Int)
    (cols : Nat) (arW arH : Int) (mode : Mode) (margin gutter : Int) :
    Except String (List Placement × Int) :=
  if nUrls = 0 then .error ("No images provided.")
  else
    let rows := planRows nUrls cols canvasW margin gutter arW arH
    .ok (placeRows download mode gutter rows 0 margin, canvasHeight rows gutter margin)

theorem placeRowAux_length (download : Nat → Option (Int × Int)) (mode : Mode)
    (cellW cellH gutter : Int) :
    ∀ k idx x y, (placeRowAux download mode cellW cellH gutter k idx x y).length = k := by
  intro k
  induction k with
  | zero => intro idx x y; rfl
  | succ k ih => intro idx x y; simp [placeRowAux, ih]

theorem placeRows_length (download : Nat → Option (Int × Int)) (mode : Mode) (gutter : Int) :
    ∀ rows idx y, (placeRows download mode gutter rows idx y).length = sumItems rows := by
  intro rows
  induction rows with
  | nil => intro idx y; rfl
  | cons row rest ih =>
    intro idx y
    simp [placeRows, placeRowAux_length, ih, sumItems]

theorem placeRowAux_mem (download : Nat → Option (Int × Int)) (mode : Mode)
    (cellW cellH gutter : Int) :
    ∀ k idx x y p, p ∈ placeRowAux download mode cellW cellH gutter k idx x y →
      p.tile = resizeIntoCell (download p.idx) cellW cellH mode := by
  intro k
  induction k with
  | zero => intro idx x y p h; simp [placeRowAux] at h
  | succ k ih =>
    intro idx x y p h
    simp only [placeRowAux, List.mem_cons] at h
    rcases h with h | h
    · subst h; rfl
    · exact ih _ _ _ p h

theorem placeRows_mem (download : Nat → Option (Int × Int)) (mode : Mode) (gutter : Int) :
    ∀ rows idx y p, p ∈ placeRows download mode gutter rows idx y →
      ∃ row ∈ rows, p.tile = resizeIntoCell (download p.idx) row.cellW row.cellH mode := by
  intro rows
  induction rows with
  | nil => intro idx y p h; simp [placeRows] at h
  | cons row rest ih =>
    intro idx y p h
    simp only [placeRows, List.mem_append] at h
    rcases h with h | h
    · exact ⟨row, List.mem_cons_self _ _, placeRowAux_mem download mode _ _ gutter _ _ _ _ p h⟩
    · obtain ⟨r, hr, hp⟩ := ih _ _ p h
      exact ⟨r, List.mem_cons_of_mem _ hr, hp⟩

/-- C8: a failed tile download is substituted by a solid `(32, 32, 32)`
placeholder raster of exactly the target cell size; `make_collage` still
completes with one tile per URL and no error; concretely, with five URLs of
which the one at index 2 fails, the output holds five tiles and the failed
slot is the solid placeholder. -/
theorem tile_failure_placeholder_and_completion :
    (∀ (tw th : Int) (mode : Mode),
        resizeIntoCell none tw th mode = .solid tw th (32, 32, 32)) ∧
    (∀ (download : Nat → Option (Int × Int)) (n : Nat) (canvasW : Int) (cols : Nat)
        (arW arH : Int) (mode : Mode) (margin gutter : Int), 1 ≤ n → 1 ≤ cols →
        ∃ ps hgt,
          make_collage download n canvasW cols arW arH mode margin gutter = .ok (ps, hgt) ∧
          ps.length = n ∧
          ∀ p ∈ ps, ∃ row ∈ planRows n cols canvasW margin gutter arW arH,
            p.tile = resizeIntoCell (download p.idx) row.cellW row.cellH mode) ∧
    (make_collage (fun i => if i = 2 then none else some (1920, 1080)) 5 1820 2 16 9
        .cover 0 0 =
      .ok ([⟨0, .cropped 1920 1080 910 512, 0, 0⟩,
            ⟨1, .cropped 1920 1080 910 512, 910, 0⟩,
            ⟨2, .solid 910 512 (32, 32, 32), 0, 512⟩,
            ⟨3, .cropped 1920 1080 910 512, 910, 512⟩,
            ⟨4, .cropped 1920 1080 1820 1024, 0, 1024⟩], 2048)) := by
  refine ⟨fun _ _ _ => rfl, ?_, by rfl⟩
  intro download n canvasW cols arW arH mode margin gutter hn hc
  have hne : n ≠ 0 := by omega
  refine ⟨placeRows download mode gutter (planRows n cols canvasW margin gutter arW arH) 0 margin,
    canvasHeight (planRows n cols canvasW margin gutter arW arH) gutter margin, ?_, ?_, ?_⟩
  · simp [make_collage, hne]
  · rw [placeRows_length, planRows_sumItems n cols canvasW margin gutter arW arH hn hc]
  · intro p hp
    exact placeRows_mem download mode gutter _ _ _ p hp

theorem tile_failure_placeholder_and_completion_holds :
    1 ≤ 5 ∧ 1 ≤ 2 ∧
    (∃ ps hgt,
      make_collage (fun _ => none) 5 1820 2 16 9 .cover 0 0 = .ok (ps, hgt) ∧
      ps.length = 5 ∧
      ∀ p ∈ ps, ∃ row ∈ planRows 5 2 1820 0 0 16 9,
        p.tile = resizeIntoCell ((fun _ => none) p.idx) row.cellW row.cellH .cover) :=
  ⟨by decide, by decide,
    tile_failure_placeholder_and_completion.2.1 (fun _ => none) 5 1820 2 16 9 .cover 0 0
      (by decide) (by decide)⟩

/-! ## Gradient band compositor (`add_gradient_background`,
`src/onThisDay.py` lines 342-402) -/

/-- The geometry computed by `add_gradient_background`: `pasted` is the
`(y, height)` region of the image overwritten by the cropped band (`none` on
the degenerate early return where the clamped band is empty), `cropTop` /
`cropBottom` the vertical crop applied to the band image, and
`solidTop` / `solidBottom` the returned solid-region bounds. -/
structure BandGeometry where
  pasted : Option (Int × Int)
  cropTop : Int
  cropBottom : Int
  solidTop : Int
  solidBottom : Int
deriving Repr, DecidableEq

/-- `add_gradient_background(img, center_y, height, fade, opacity)` restricted
to its geometry (the per-row alpha values do not affect any bound).  `imgH` is
`img.height`. -/
def add_gradient_background (imgH centerY height fade : Int) : BandGeometry :=
  let bandH := height + 2 * fade
  let bandTop := centerY - (height / 2 + fade)
  let bandBottom := bandTop + bandH
  let top := max 0 bandTop
  let bottom := min imgH bandBottom
  if bottom ≤ top then
    let solidTop := centerY - height / 2
    let solidBottom := solidTop + height
    ⟨none, 0, 0, max 0 solidTop, min imgH solidBottom⟩
  else
    let cropTop := top - bandTop
    let cropBottom := cropTop + (bottom - top)
    let solidTop := max 0 (centerY - height / 2)
    let solidBottom := min imgH (solidTop + height)
    ⟨some (top, bottom - top), cropTop, cropBottom, solidTop, solidBottom⟩

/-- C9: for every `center_y` (including positions placing the band partly or
wholly outside the image) the band geometry stays in bounds: any paste lands
inside `[0, imgH]`, the band crop stays inside the band raster, and the
returned solid bounds satisfy `0 ≤ solid_top` and `solid_bottom ≤ imgH`. -/
theorem gradient_band_in_bounds (imgH centerY height fade : Int)
    (himg : 0 ≤ imgH) (hh : 0 ≤ height) (hf : 0 ≤ fade) :
    0 ≤ (add_gradient_background imgH centerY height fade).solidTop ∧
    (add_gradient_background imgH centerY height fade).solidBottom ≤ imgH ∧
    (∀ y hgt, (add_gradient_background imgH centerY height fade).pasted = some (y, hgt) →
      0 ≤ y ∧ 0 < hgt ∧ y + hgt ≤ imgH ∧
      0 ≤ (add_gradient_background imgH centerY height fade).cropTop ∧
      (add_gradient_background imgH centerY height fade).cropTop ≤
        (add_gradient_background imgH centerY height fade).cropBottom ∧
      (add_gradient_background imgH centerY height fade).cropBottom ≤
        height + 2 * fade) := by
  simp only [add_gradient_background]
  split_ifs with hdeg
  · refine ⟨by simp, by simp [himg], ?_⟩
    intro y hgt h
    simp at h
  · refine ⟨by simp, by simp [himg], ?_⟩
    intro y hgt h
    simp only [Option.some.injEq, Prod.mk.injEq] at h
    obtain ⟨hy, hhgt⟩ := h
    subst hy hhgt
    dsimp only
    simp only [sup_eq_max, inf_eq_min] at hdeg ⊢
    omega

theorem gradient_band_in_bounds_holds :
    (0 : Int) ≤ 2048 ∧ (0 : Int) ≤ 200 ∧ (0 : Int) ≤ 200 ∧
    (0 ≤ (add_gradient_background 2048 774 200 200).solidTop ∧
     (add_gradient_background 2048 774 200 200).solidBottom ≤ 2048 ∧
     (∀ y hgt, (add_gradient_background 2048 774 200 200).pasted = some (y, hgt) →
       0 ≤ y ∧ 0 < hgt ∧ y + hgt ≤ 2048 ∧
       0 ≤ (add_gradient_background 2048 774 200 200).cropTop ∧
       (add_gradient_background 2048 774 200 200).cropTop ≤
         (add_gradient_background 2048 774 200 200).cropBottom ∧
       (add_gradient_background 2048 774 200 200).cropBottom ≤ 200 + 2 * 200)) :=
  ⟨by decide, by decide, by decide,
    gradient_band_in_bounds 2048 774 200 200 (by decide) (by decide) (by decide)⟩

/-! ## `make_collage_1242` and `_fit_keep_aspect` (`src/onThisDay.py`
lines 219-286) -/

/-- `_fit_keep_aspect(img, target_w)`: scale to the full target width, the
height being `int(round(h * (target_w / w)))` of the exact ratio. -/
def fitKeepAspect (w h targetW : Int) : Int × Int :=
  (targetW, pyRound (h * targetW) w)

/-- Result of `make_collage_1242`: either the single-image path (the fitted
image pasted at `(0, 0)` on a canvas of exactly its size) or the fixed-cell
grid path (`totalH` the canvas height, one placement per URL). -/
inductive CollageOut where
  | single (fittedW fittedH : Int)
  | grid (totalH : Int) (tiles : List Placement)
deriving Repr, DecidableEq

/-- The tile produced by `_center_crop_cover` from a source of size
`(sw, sh)`. -/
def centerCropTile (sw sh tw th : Int) : Tile :=
  let sz := centerCropCover sw sh tw th
  .cropped sw sh sz.1 sz.2

/-- The paste loop of the grid branch of `make_collage_1242`
(`src/onThisDay.py` lines 264-283): a failed download becomes a cell-sized
background image before cropping; when `last_wide` holds, the final tile
spans the usable width at twice the cell height and the loop breaks. -/
def gridLoop1242 (download : Nat → Option (Int × Int)) (n cols : Nat)
    (canvasW cellW cellH margin gutter : Int) (lastWide : Bool) :
    List Nat → Nat → Int → List Placement
  | [], _, _ => []
  | idx :: rest, col, y =>
    let img := (download idx).getD (cellW, cellH)
    if lastWide ∧ idx = n - 1 then
      [⟨idx, centerCropTile img.1 img.2 (canvasW - 2 * margin) (cellH * 2), margin, y⟩]
    else
      let tile := centerCropTile img.1 img.2 cellW cellH
      let x := margin + (col : Int) * (cellW + gutter)
      if col + 1 ≥ cols then
        ⟨idx, tile, x, y⟩ :: gridLoop1242 download n cols canvasW cellW cellH margin gutter
          lastWide rest 0 (y + cellH + gutter)
      else
        ⟨idx, tile, x, y⟩ :: gridLoop1242 download n cols canvasW cellW cellH margin gutter
          lastWide rest (col + 1) y

/-- `make_collage_1242(urls, out_path, ...)` (`src/onThisDay.py` lines
225-286).  `download u` models `_download_image(u)`; in the single-image
branch a download failure propagates (no `try` there), in the grid branch it
is caught and replaced by a cell-sized background image.  Empty URLs are
filtered out first. -/
def make_collage_1242 (download : String → Option (Int × Int)) (urls0 : List String)
    (canvasW : Int) (cols : Nat) (cellW cellH margin gutter : Int) :
    Except String CollageOut :=
  let urls := urls0.filter (fun u => u ≠ "")
  match urls with
  | [] => .error ("No image URLs provided")
  | u :: rest =>
    if rest.isEmpty then
      match download u with
      | none => .error ("download failed")
      | some (w, h) =>
        let fitted := fitKeepAspect w h canvasW
        .ok (.single fitted.1 fitted.2)
    else
      let n := urls.length
      let lastWide := n % cols = 1
      let rowsBase := n / cols
      let totalH :=
        if lastWide then
          2 * margin + (rowsBase : Int) * cellH + max ((rowsBase : Int) - 1) 0 * gutter +
            (if 0 < rowsBase then gutter else 0) + 2 * cellH
        else
          2 * margin + (rowsBase : Int) * cellH + max ((rowsBase : Int) - 1) 0 * gutter
      .ok (.grid totalH
        (gridLoop1242 (fun i => download (urls.getD i "")) n cols canvasW cellW cellH
          margin gutter lastWide (List.range n) 0 margin))

/-! ## Balanced two-line title wrap (`text_width` and `best_two_line_wrap`,
`src/generateImage.py` lines 60-111) -/

/-- `text_width(px_font, s, spacing)`: per-character glyph widths plus the
inter-character spacing, the trailing spacing removed; `0` for the empty
string.  `fw c` models `font.getbbox(ch)[2] - font.getbbox(ch)[0]`. -/
def text_width (fw : Char → Int) (spacing : Int) (s : String) : Int :=
  if s = "" then 0
  else (s.data.map fw).sum + spacing * ((s.length : Int) - 1)

/-- Worker for `pySplit`: `acc` holds the pending word's characters in
reverse. -/
def pySplitAux : List Char → List Char → List String
  | [], acc => if acc = [] then [] else [String.mk acc.reverse]
  | c :: cs, acc =>
    if c = ' ' then
      if acc = [] then pySplitAux cs []
      else String.mk acc.reverse :: pySplitAux cs []
    else pySplitAux cs (c :: acc)

/-- Python `title.split()`: split on runs of whitespace, dropping empty
pieces (modelled on the space character). -/
def pySplit (s : String) : List String :=
  pySplitAux s.data []

example : pySplit "THE LEGEND  OF" = ["THE", "LEGEND", "OF"] := by decide
example : pySplit "  " = [] := by decide
example : pySplit "ZELDA" = ["ZELDA"] := by decide

/-- `" ".join(words[:k])`. -/
def splitLine1 (words : List String) (k : Nat) : String :=
  " ".intercalate (words.take k)

/-- `" ".join(words[k:])`. -/
def splitLine2 (words : List String) (k : Nat) : String :=
  " ".intercalate (words.drop k)

/-- The orphan penalty: `3000` when either side of the split holds fewer than
`min_words_per_line` words. -/
def splitOrphanPenalty (minWords : Nat) (words : List String) (k : Nat) : Int :=
  if (words.take k).length < minWords ∨ (words.drop k).length < minWords then 3000 else 0

/-- Both lines of the split at `k` fit within `max_width`. -/
def splitValid (fw : Char → Int) (spacing maxWidth : Int) (words : List String) (k : Nat) :
    Prop :=
  text_width fw spacing (splitLine1 words k) ≤ maxWidth ∧
  text_width fw spacing (splitLine2 words k) ≤ maxWidth

instance (fw : Char → Int) (spacing maxWidth : Int) (words : List String) (k : Nat) :
    Decidable (splitValid fw spacing maxWidth words k) := by
  unfold splitValid
  infer_instance

/-- `score = (balance_score * 1000) + total_score + orphan_penalty`. -/
def splitScore (fw : Char → Int) (spacing : Int) (minWords : Nat) (words : List String)
    (k : Nat) : Int :=
  |text_width fw spacing (splitLine1 words k) - text_width fw spacing (splitLine2 words k)|
      * 1000 +
    (text_width fw spacing (splitLine1 words k) + text_width fw spacing (splitLine2 words k)) +
    splitOrphanPenalty minWords words k

/-- One iteration of the candidate loop of `best_two_line_wrap`: a split whose
two lines both fit replaces the incumbent iff its score is strictly smaller. -/
def wrapStep (fw : Char → Int) (spacing maxWidth : Int) (minWords : Nat)
    (words : List String) (best : Option (List String × Int)) (k : Nat) :
    Option (List String × Int) :=
  if splitValid fw spacing maxWidth words k then
    let score := splitScore fw spacing minWords words k
    match best with
    | none => some ([splitLine1 words k, splitLine2 words k], score)
    | some (b, bs) =>
      if score < bs then some ([splitLine1 words k, splitLine2 words k], score)
      else some (b, bs)
  else best

/-- `best_two_line_wrap(title, fnt, max_width, spacing, min_words_per_line)`
(`src/generateImage.py` lines 78-111): `None` for one-word titles, otherwise
the best-scoring split over all break positions `k ∈ range(1, len(words))`
among those whose two lines both fit. -/
def best_two_line_wrap (fw : Char → Int) (title : String) (maxWidth spacing : Int)
    (minWords : Nat) : Option (List String) :=
  let words := pySplit title
  if words.length ≤ 1 then none
  else
    ((List.range' 1 (words.length - 1)).foldl (wrapStep fw spacing maxWidth minWords words)
        none).map Prod.fst

example :
    best_two_line_wrap (fun _ => 10) "THE LEGEND OF ZELDA TEARS OF THE KINGDOM" 360 0 2 =
      some ["THE LEGEND OF ZELDA", "TEARS OF THE KINGDOM"] := by decide

/-- Invariant of the candidate fold: any incumbent is a valid split carrying
its own score. -/
def WrapInv (fw : Char → Int) (spacing maxWidth : Int) (minWords : Nat)
    (words : List String) (st : Option (List String × Int)) : Prop :=
  ∀ b s, st = some (b, s) →
    ∃ k, b = [splitLine1 words k, splitLine2 words k] ∧
      splitValid fw spacing maxWidth words k ∧
      s = splitScore fw spacing minWords words k

theorem wrapStep_inv (fw : Char → Int) (spacing maxWidth : Int) (minWords : Nat)
    (words : List String) (st : Option (List String × Int)) (k : Nat)
    (h : WrapInv fw spacing maxWidth minWords words st) :
    WrapInv fw spacing maxWidth minWords words
      (wrapStep fw spacing maxWidth minWords words st k) := by
  intro b s heq
  by_cases hv : splitValid fw spacing maxWidth words k
  · cases st with
    | none =>
      rw [wrapStep, if_pos hv] at heq
      simp only [Option.some.injEq, Prod.mk.injEq] at heq
      exact ⟨k, heq.1.symm, hv, heq.2.symm⟩
    | some p =>
      obtain ⟨b0, s0⟩ := p
      rw [wrapStep, if_pos hv] at heq
      simp only [] at heq
      split_ifs at heq with hlt
      · simp only [Option.some.injEq, Prod.mk.injEq] at heq
        exact ⟨k, heq.1.symm, hv, heq.2.symm⟩
      · exact h b s heq
  · rw [wrapStep, if_neg hv] at heq
    exact h b s heq

theorem foldl_wrapStep_inv (fw : Char → Int) (spacing maxWidth : Int) (minWords : Nat)
    (words : List String) :
    ∀ (l : List Nat) (st : Option (List String × Int)),
      WrapInv fw spacing maxWidth minWords words st →
      WrapInv fw spacing maxWidth minWords words
        (l.foldl (wrapStep fw spacing maxWidth minWords words) st) := by
  intro l
  induction l with
  | nil => intro st h; exact h
  | cons x xs ih =>
    intro st h
    exact ih _ (wrapStep_inv fw spacing maxWidth minWords words st x h)

theorem wrapStep_isSome_of_isSome (fw : Char → Int) (spacing maxWidth : Int) (minWords : Nat)
    (words : List String) (st : Option (List String × Int)) (k : Nat)
    (h : st.isSome) :
    (wrapStep fw spacing maxWidth minWords words st k).isSome := by
  by_cases hv : splitValid fw spacing maxWidth words k
  · cases st with
    | none => simp at h
    | some p =>
      obtain ⟨b0, s0⟩ := p
      rw [wrapStep, if_pos hv]
      simp only []
      split_ifs <;> rfl
  · rw [wrapStep, if_neg hv]
    exact h

theorem wrapStep_isSome_of_valid (fw : Char → Int) (spacing maxWidth : Int) (minWords : Nat)
    (words : List String) (st : Option (List String × Int)) (k : Nat)
    (hv : splitValid fw spacing maxWidth words k) :
    (wrapStep fw spacing maxWidth minWords words st k).isSome := by
  cases st with
  | none => rw [wrapStep, if_pos hv]; rfl
  | some p =>
    obtain ⟨b0, s0⟩ := p
    rw [wrapStep, if_pos hv]
    simp only []
    split_ifs <;> rfl

theorem foldl_wrapStep_isSome (fw : Char → Int) (spacing maxWidth : Int) (minWords : Nat)
    (words : List String) :
    ∀ (l : List Nat) (st : Option (List String × Int)), st.isSome →
      (l.foldl (wrapStep fw spacing maxWidth minWords words) st).isSome := by
  intro l
  induction l with
  | nil => intro st h; exact h
  | cons x xs ih =>
    intro st h
    exact ih _ (wrapStep_isSome_of_isSome fw spacing maxWidth minWords words st x h)

theorem foldl_wrapStep_isSome_of_valid (fw : Char → Int) (spacing maxWidth : Int)
    (minWords : Nat) (words : List String) :
    ∀ (l : List Nat) (st : Option (List String × Int)) (k : Nat), k ∈ l →
      splitValid fw spacing maxWidth words k →
      (l.foldl (wrapStep fw spacing maxWidth minWords words) st).isSome := by
  intro l
  induction l with
  | nil => intro st k hk; simp at hk
  | cons x xs ih =>
    intro st k hk hv
    rcases List.mem_cons.mp hk with rfl | hk
    · exact foldl_wrapStep_isSome fw spacing maxWidth minWords words xs _
        (wrapStep_isSome_of_valid fw spacing maxWidth minWords words st k hv)
    · exact ih _ k hk hv

theorem foldl_wrapStep_min (fw : Char → Int) (spacing maxWidth : Int) (minWords : Nat)
    (words : List String) :
    ∀ (l : List Nat) (st : Option (List String × Int)) (b : List String) (s : Int),
      l.foldl (wrapStep fw spacing maxWidth minWords words) st = some (b, s) →
      (∀ k ∈ l, splitValid fw spacing maxWidth words k →
        s ≤ splitScore fw spacing minWords words k) ∧
      (∀ b0 s0, st = some (b0, s0) → s ≤ s0) := by
  intro l
  induction l with
  | nil =>
    intro st b s h
    refine ⟨by simp, ?_⟩
    intro b0 s0 h0
    rw [h0] at h
    simp only [List.foldl_nil, Option.some.injEq, Prod.mk.injEq] at h
    omega
  | cons x xs ih =>
    intro st b s h
    rw [List.foldl_cons] at h
    obtain ⟨hxs, hstep⟩ := ih _ b s h
    have hstepx : ∀ b1 s1, wrapStep fw spacing maxWidth minWords words st x = some (b1, s1) →
        (splitValid fw spacing maxWidth words x → s1 ≤ splitScore fw spacing minWords words x) ∧
        (∀ b0 s0, st = some (b0, s0) → s1 ≤ s0) := by
      intro b1 s1 h1
      by_cases hv : splitValid fw spacing maxWidth words x
      · cases st with
        | none =>
          rw [wrapStep, if_pos hv] at h1
          simp only [Option.some.injEq, Prod.mk.injEq] at h1
          refine ⟨fun _ => by omega, fun b0 s0 h0 => by simp at h0⟩
        | some p =>
          obtain ⟨b0, s0⟩ := p
          rw [wrapStep, if_pos hv] at h1
          simp only [] at h1
          split_ifs at h1 with hlt
          · simp only [Option.some.injEq, Prod.mk.injEq] at h1
            refine ⟨fun _ => by omega, ?_⟩
            intro b2 s2 h2
            simp only [Option.some.injEq, Prod.mk.injEq] at h2
            omega
          · simp only [Option.some.injEq, Prod.mk.injEq] at h1
            refine ⟨fun _ => by omega, ?_⟩
            intro b2 s2 h2
            simp only [Option.some.injEq, Prod.mk.injEq] at h2
            omega
      · rw [wrapStep, if_neg hv] at h1
        refine ⟨fun hvv => absurd hvv hv, ?_⟩
        intro b2 s2 h2
        rw [h2] at h1
        simp only [Option.some.injEq, Prod.mk.injEq] at h1
        omega
    constructor
    · intro k hk hkv
      rcases List.mem_cons.mp hk with rfl | hk
      · -- k = x: chase the incumbent through the step
        cases hwx : wrapStep fw spacing maxWidth minWords words st k with
        | none =>
          exact absurd (hwx ▸ wrapStep_isSome_of_valid fw spacing maxWidth minWords words st
            k hkv) (by simp)
        | some p =>
          obtain ⟨b1, s1⟩ := p
          have h1 := hstepx b1 s1 hwx
          have h2 := hstep b1 s1 hwx
          exact le_trans h2 (h1.1 hkv)
      · exact hxs k hk hkv
    · intro b0 s0 h0
      cases hwx : wrapStep fw spacing maxWidth minWords words st x with
      | none =>
        rw [hwx] at hstep
        -- a some incumbent never becomes none
        have : (wrapStep fw spacing maxWidth minWords words st x).isSome :=
          wrapStep_isSome_of_isSome fw spacing maxWidth minWords words st x (by rw [h0]; rfl)
        rw [hwx] at this
        simp at this
      | some p =>
        obtain ⟨b1, s1⟩ := p
        have h1 := (hstepx b1 s1 hwx).2 b0 s0 h0
        have h2 := hstep b1 s1 hwx
        omega

/-- C5: `best_two_line_wrap` never returns a split in which either line's
measured (spacing-aware) width exceeds `max_width`; and whenever the title
has at least two words and at least one word-boundary split puts both lines
within `max_width`, it returns such a split rather than `None`. -/
theorem two_line_wrap_sound_and_complete (fw : Char → Int) (title : String)
    (maxWidth spacing : Int) (minWords : Nat) :
    (∀ l1 l2, best_two_line_wrap fw title maxWidth spacing minWords = some [l1, l2] →
      text_width fw spacing l1 ≤ maxWidth ∧ text_width fw spacing l2 ≤ maxWidth) ∧
    (2 ≤ (pySplit title).length →
      (∃ k, 1 ≤ k ∧ k < (pySplit title).length ∧
        text_width fw spacing (splitLine1 (pySplit title) k) ≤ maxWidth ∧
        text_width fw spacing (splitLine2 (pySplit title) k) ≤ maxWidth) →
      ∃ l1 l2, best_two_line_wrap fw title maxWidth spacing minWords = some [l1, l2] ∧
        text_width fw spacing l1 ≤ maxWidth ∧ text_width fw spacing l2 ≤ maxWidth) := by
  constructor
  · intro l1 l2 h
    simp only [best_two_line_wrap] at h
    split_ifs at h with hlen
    obtain ⟨⟨b, s⟩, hfold, hmap⟩ := Option.map_eq_some'.mp h
    obtain ⟨k, hb, hv, -⟩ := foldl_wrapStep_inv fw spacing maxWidth minWords (pySplit title)
      _ none (fun b s hh => by simp at hh) b s hfold
    replace hmap : b = [l1, l2] := hmap
    rw [hb] at hmap
    simp only [List.cons.injEq, and_true] at hmap
    obtain ⟨h1, h2⟩ := hmap
    obtain ⟨hv1, hv2⟩ := hv
    exact ⟨by rw [← h1]; exact hv1, by rw [← h2]; exact hv2⟩
  · rintro hlen ⟨k, hk1, hk2, hw1, hw2⟩
    have hv : splitValid fw spacing maxWidth (pySplit title) k := ⟨hw1, hw2⟩
    simp only [best_two_line_wrap]
    rw [if_neg (by omega)]
    have hkmem : k ∈ List.range' 1 ((pySplit title).length - 1) := by
      rw [List.mem_range'_1]
      omega
    have hsome := foldl_wrapStep_isSome_of_valid fw spacing maxWidth minWords (pySplit title)
      _ none k hkmem hv
    obtain ⟨⟨b, s⟩, hfold⟩ := Option.isSome_iff_exists.mp hsome
    obtain ⟨kr, hb, hvr, -⟩ := foldl_wrapStep_inv fw spacing maxWidth minWords (pySplit title)
      _ none (fun b s hh => by simp at hh) b s hfold
    exact ⟨splitLine1 (pySplit title) kr, splitLine2 (pySplit title) kr,
      by rw [hfold, hb]; rfl, hvr.1, hvr.2⟩

theorem two_line_wrap_sound_and_complete_holds :
    best_two_line_wrap (fun _ => 10) "THE LEGEND OF ZELDA TEARS OF THE KINGDOM" 360 0 2 =
      some ["THE LEGEND OF ZELDA", "TEARS OF THE KINGDOM"] ∧
    text_width (fun _ => 10) 0 "THE LEGEND OF ZELDA" ≤ 360 ∧
    text_width (fun _ => 10) 0 "TEARS OF THE KINGDOM" ≤ 360 :=
  ⟨by decide,
    (two_line_wrap_sound_and_complete (fun _ => 10)
      "THE LEGEND OF ZELDA TEARS OF THE KINGDOM" 360 0 2).1
      "THE LEGEND OF ZELDA" "TEARS OF THE KINGDOM" (by decide)⟩

/-- C6: among all valid splits, `best_two_line_wrap` returns one minimizing
the code's score `|w1 - w2| * 1000 + (w1 + w2) + orphan_penalty` (balance
first, combined width as tie-break, a fixed `3000` penalty on splits leaving
fewer than `min_words_per_line` words on a line); for the title
"THE LEGEND OF ZELDA TEARS OF THE KINGDOM" at max width `360` (which the
one-line title exceeds), the returned split's imbalance `10` is below that of
either single-word-orphan alternative (`330` and `250`). -/
theorem two_line_wrap_optimal :
    (∀ (fw : Char → Int) (title : String) (maxWidth spacing : Int) (minWords : Nat)
        (res : List String),
      best_two_line_wrap fw title maxWidth spacing minWords = some res →
      ∀ k, 1 ≤ k → k < (pySplit title).length →
        splitValid fw spacing maxWidth (pySplit title) k →
        ∃ kr, res = [splitLine1 (pySplit title) kr, splitLine2 (pySplit title) kr] ∧
          splitValid fw spacing maxWidth (pySplit title) kr ∧
          splitScore fw spacing minWords (pySplit title) kr ≤
            splitScore fw spacing minWords (pySplit title) k) ∧
    ((360 : Int) < text_width (fun _ => 10) 0 "THE LEGEND OF ZELDA TEARS OF THE KINGDOM" ∧
     best_two_line_wrap (fun _ => 10) "THE LEGEND OF ZELDA TEARS OF THE KINGDOM" 360 0 2 =
       some ["THE LEGEND OF ZELDA", "TEARS OF THE KINGDOM"] ∧
     |text_width (fun _ => 10) 0 "THE LEGEND OF ZELDA" -
       text_width (fun _ => 10) 0 "TEARS OF THE KINGDOM"| = 10 ∧
     |text_width (fun _ => 10) 0 "THE" -
       text_width (fun _ => 10) 0 "LEGEND OF ZELDA TEARS OF THE KINGDOM"| = 330 ∧
     |text_width (fun _ => 10) 0 "THE LEGEND OF ZELDA TEARS OF THE" -
       text_width (fun _ => 10) 0 "KINGDOM"| = 250 ∧
     (10 : Int) < 250 ∧ (10 : Int) < 330) := by
  constructor
  · intro fw title maxWidth spacing minWords res h k hk1 hk2 hkv
    simp only [best_two_line_wrap] at h
    split_ifs at h with hlen
    obtain ⟨⟨b, s⟩, hfold, hmap⟩ := Option.map_eq_some'.mp h
    obtain ⟨kr, hb, hvr, hs⟩ := foldl_wrapStep_inv fw spacing maxWidth minWords
      (pySplit title) _ none (fun b s hh => by simp at hh) b s hfold
    replace hmap : b = res := hmap
    rw [hmap] at hb
    have hkmem : k ∈ List.range' 1 ((pySplit title).length - 1) := by
      rw [List.mem_range'_1]
      omega
    have hmin := (foldl_wrapStep_min fw spacing maxWidth minWords (pySplit title)
      _ none _ s hfold).1 k hkmem hkv
    exact ⟨kr, hb, hvr, by omega⟩
  · refine ⟨by decide, by decide, by decide, by decide, by decide, by decide, by decide⟩

theorem two_line_wrap_optimal_holds :
    ∃ kr,
      ["THE LEGEND OF ZELDA", "TEARS OF THE KINGDOM"] =
        [splitLine1 (pySplit "THE LEGEND OF ZELDA TEARS OF THE KINGDOM") kr,
         splitLine2 (pySplit "THE LEGEND OF ZELDA TEARS OF THE KINGDOM") kr] ∧
      splitValid (fun _ => 10) 0 360 (pySplit "THE LEGEND OF ZELDA TEARS OF THE KINGDOM") kr ∧
      splitScore (fun _ => 10) 0 2 (pySplit "THE LEGEND OF ZELDA TEARS OF THE KINGDOM") kr ≤
        splitScore (fun _ => 10) 0 2 (pySplit "THE LEGEND OF ZELDA TEARS OF THE KINGDOM") 1 :=
  two_line_wrap_optimal.1 (fun _ => 10) "THE LEGEND OF ZELDA TEARS OF THE KINGDOM" 360 0 2
    ["THE LEGEND OF ZELDA", "TEARS OF THE KINGDOM"] (by decide) 1 (by decide) (by decide)
    (by decide)

/-! ## Per-line font auto-fit (`_fit_font_to_width`, `src/onThisDay.py`
lines 302-316, and the height-budget passes of `add_text_overlay`,
lines 482-510) -/

/-- `MIN_FONT_SIZE_PX` (`src/onThisDay.py` line 48). -/
def MIN_FONT_SIZE_PX : Int := 18

/-- The shrink loop of `_fit_font_to_width`: `w size` models the measured
width of the (fixed, non-empty) text at font size `size`, stroke included.
The loop decrements by `step` while the width overflows `maxW` and
`minPx < size`, then falls back to `minPx`.  The `step = 0` guard returns
`minPx` where Python would loop forever (the repository only calls this with
the default `step = 2`). -/
def fitLoop (w : Int → Int) (maxW minPx : Int) (step : Nat) (size : Int) : Int :=
  if h1 : minPx < size then
    if w size ≤ maxW then size
    else if h2 : step = 0 then minPx
    else fitLoop w maxW minPx step (size - step)
  else minPx
termination_by (size - minPx).toNat
decreasing_by omega

/-- `_fit_font_to_width(draw, text, base_size, max_width, stroke, min_px,
step)`: empty text returns the base size unchanged; otherwise the shrink
loop runs downwards from `base`. -/
def fit_font_to_width (text : String) (w : Int → Int) (base maxW minPx : Int)
    (step : Nat) : Int :=
  if text = "" then base else fitLoop w maxW minPx step base

/-- One line's width refit in the proportional-rescale pass of
`add_text_overlay` (`src/onThisDay.py` lines 483-493): the new base is
`max(MIN_FONT_SIZE_PX, int(sz * scale))`; the floating-point product
`int(sz * scale)` is abstracted as the arbitrary integer `scaled`. -/
def rescaleRefit (text : String) (w : Int → Int) (maxW scaled : Int) (step : Nat) : Int :=
  fit_font_to_width text w (max MIN_FONT_SIZE_PX scaled) maxW MIN_FONT_SIZE_PX step

/-- One line's refit in the final one-pixel squeeze loop of
`add_text_overlay` (`src/onThisDay.py` lines 501-508): the next base is
`max(MIN_FONT_SIZE_PX, sz - 1)`. -/
def squeezeRefit (text : String) (w : Int → Int) (maxW sz : Int) (step : Nat) : Int :=
  fit_font_to_width text w (max MIN_FONT_SIZE_PX (sz - 1)) maxW MIN_FONT_SIZE_PX step

theorem fitLoop_ge (w : Int → Int) (maxW minPx : Int) (step : Nat) (size : Int) :
    minPx ≤ fitLoop w maxW minPx step size := by
  unfold fitLoop
  split_ifs with h1 h2 h3
  · omega
  · omega
  · exact fitLoop_ge w maxW minPx step (size - step)
  · omega
termination_by (size - minPx).toNat
decreasing_by omega

/-- C7 counterexample: `_fit_font_to_width` does not return a size ≥ the
`min_px` floor on every input — with empty text it returns the base size
unchanged (here base 10 against floor 18), so the claimed universal floor
fails. -/
theorem fit_font_floor_counterexample :
    fit_font_to_width "" (fun _ => 0) 10 100 18 2 = 10 ∧
    ¬ ((18 : Int) ≤ fit_font_to_width "" (fun _ => 0) 10 100 18 2) :=
  ⟨rfl, by decide⟩

/-- C7 (amended): `_fit_font_to_width` returns a size ≥ the `min_px` floor
for every input whose text is non-empty (even when the decrement step skips
past the floor) and also for empty text whenever `base_size ≥ min_px`; the
height-budget proportional rescale and the one-pixel squeeze loop of
`add_text_overlay`, whose refit bases are clamped to
`max(MIN_FONT_SIZE_PX, ...)`, therefore keep every line's font size ≥
`MIN_FONT_SIZE_PX`. -/
theorem fit_font_floor_amended :
    (∀ (text : String) (w : Int → Int) (base maxW minPx : Int) (step : Nat),
      (text ≠ "" ∨ minPx ≤ base) →
      minPx ≤ fit_font_to_width text w base maxW minPx step) ∧
    (∀ (text : String) (w : Int → Int) (maxW scaled : Int) (step : Nat),
      MIN_FONT_SIZE_PX ≤ rescaleRefit text w maxW scaled step) ∧
    (∀ (text : String) (w : Int → Int) (maxW sz : Int) (step : Nat),
      MIN_FONT_SIZE_PX ≤ squeezeRefit text w maxW sz step) := by
  have hmain : ∀ (text : String) (w : Int → Int) (base maxW minPx : Int) (step : Nat),
      (text ≠ "" ∨ minPx ≤ base) →
      minPx ≤ fit_font_to_width text w base maxW minPx step := by
    intro text w base maxW minPx step h
    unfold fit_font_to_width
    split_ifs with he
    · rcases h with h | h
      · exact absurd he h
      · exact h
    · exact fitLoop_ge w maxW minPx step base
  refine ⟨hmain, ?_, ?_⟩
  · intro text w maxW scaled step
    exact hmain text w (max MIN_FONT_SIZE_PX scaled) maxW MIN_FONT_SIZE_PX step
      (Or.inr (le_max_left _ _))
  · intro text w maxW sz step
    exact hmain text w (max MIN_FONT_SIZE_PX (sz - 1)) maxW MIN_FONT_SIZE_PX step
      (Or.inr (le_max_left _ _))

theorem fit_font_floor_amended_holds :
    (("A" : String) ≠ "" ∨ (18 : Int) ≤ 88) ∧
    (18 : Int) ≤ fit_font_to_width "A" (fun _ => 50) 88 1100 18 2 :=
  ⟨Or.inl (by decide),
    fit_font_floor_amended.1 "A" (fun _ => 50) 88 1100 18 2 (Or.inl (by decide))⟩

/-- C10: with exactly one non-empty URL, `make_collage_1242` takes the
single-image path: the image is scaled to the full canvas width with its own
aspect ratio (height `round(h * canvas_w / w)`, no cropping, no fixed-cell
grid), and the output canvas height is exactly that fitted height. -/
theorem single_url_bypasses_grid (download : String → Option (Int × Int))
    (urls0 : List String) (canvasW : Int) (cols : Nat) (cellW cellH margin gutter : Int)
    (u : String) (w h : Int)
    (hu : urls0.filter (fun u => u ≠ "") = [u])
    (hd : download u = some (w, h)) :
    make_collage_1242 download urls0 canvasW cols cellW cellH margin gutter =
      .ok (.single canvasW (pyRound (h * canvasW) w)) := by
  unfold make_collage_1242
  rw [hu]
  simp [hd, fitKeepAspect]

theorem single_url_bypasses_grid_holds :
    (["", "https://example/img.jpg"].filter (fun u => u ≠ "") = ["https://example/img.jpg"]) ∧
    ((fun u => if u = "https://example/img.jpg" then some ((1920 : Int), (1080 : Int))
        else none) "https://example/img.jpg" = some (1920, 1080)) ∧
    make_collage_1242
        (fun u => if u = "https://example/img.jpg" then some ((1920 : Int), (1080 : Int))
          else none)
        ["", "https://example/img.jpg"] 1242 2 621 387 0 0 =
      .ok (.single 1242 (pyRound (1080 * 1242) 1920)) :=
  ⟨by decide, by decide,
    single_url_bypasses_grid
      (fun u => if u = "https://example/img.jpg" then some ((1920 : Int), (1080 : Int))
        else none)
      ["", "https://example/img.jpg"] 1242 2 621 387 0 0 "https://example/img.jpg" 1920 1080
      (by decide) (by decide)⟩
